import Mathlib

/-!
Verification of the KuantumNET anonymity core (src/crypto) against its
specification.  The Rust modules `multi_layer.rs`, `anon_protocol.rs`,
`chaotic_routing.rs` and `mod.rs` are shallowly embedded: bytes are `Nat`
(well-formed bytes are `< 256`), machine integers are `Nat`/`Int` with
explicit bounds, randomness is an explicit oracle `rng : Nat → Nat`
(`SystemRandom::fill` / `thread_rng` draws are read off the oracle and
reduced into range exactly where the source reduces them), and fallible
Rust functions return `Except String` / `Option`.

The ChaCha20-Poly1305 primitive comes from the external `ring` crate; it is
modelled by executable stand-ins that preserve the interface the source
relies on: the keystream is a fixed function of (key, nonce, position) and
XOR-ing it is an involution, sealing appends a 16-byte tag that is a fixed
function of (key, nonce, ciphertext), and opening verifies that tag before
decrypting.  Lengths (12-byte nonce, 16-byte tag) match `ring`'s
`CHACHA20_POLY1305` constants.
-/

/-- One keystream byte of the modelled ChaCha20 cipher at position `i`
under `(key, nonce)`.  Stand-in for the external primitive: an arbitrary
fixed executable function of key, nonce and position. -/
def ksByte (key nonce : List Nat) (i : Nat) : Nat :=
  (key.foldl (fun a b => (a * 131 + b + 1) % 65521) 17 +
   nonce.foldl (fun a b => (a * 137 + b + 1) % 65521) 29 + i * 191) % 256

/-- XOR the modelled keystream (starting at position `i`) onto a byte string.
Applying it twice with the same key, nonce and start position is the
identity, which is the property of the stream cipher the source relies on. -/
def xorKs (key nonce : List Nat) : Nat → List Nat → List Nat
  | _, [] => []
  | i, b :: bs => (b ^^^ ksByte key nonce i) :: xorKs key nonce (i + 1) bs

/-- The 16-byte Poly1305 authentication tag of a ciphertext under
`(key, nonce)`: stand-in for the external MAC, an arbitrary fixed
executable function producing 16 bytes. -/
def polyTag (key nonce ct : List Nat) : List Nat :=
  let h := ct.foldl (fun a b => (a * 257 + b + 1) % 65521)
             (key.foldl (fun a b => (a * 263 + b + 1) % 65521)
               (nonce.foldl (fun a b => (a * 269 + b + 1) % 65521) 5))
  (List.range 16).map (fun i => (h / (i + 1) + h + i * 59) % 256)

/-- Model of `ring`'s `seal_in_place_append_tag`: encrypt the plaintext with
the keystream and append the 16-byte tag computed over the ciphertext. -/
def seal_in_place_append_tag (key nonce pt : List Nat) : List Nat :=
  let ct := xorKs key nonce 0 pt
  ct ++ polyTag key nonce ct

/-- Model of `ring`'s `open_in_place` followed by the caller's
`truncate(len - tag_len)`: fail if the input is shorter than the 16-byte
tag, fail if the tag does not verify, otherwise return the decrypted
plaintext (tag removed). -/
def open_in_place (key nonce data : List Nat) : Option (List Nat) :=
  if data.length < 16 then none
  else
    let ct := data.take (data.length - 16)
    let tag := data.drop (data.length - 16)
    if tag = polyTag key nonce ct then some (xorKs key nonce 0 ct) else none

/-- `SystemRandom::fill` on a buffer of `n` bytes: read `n` bytes from the
oracle `rng` starting at offset `off`. -/
def fillBytes (rng : Nat → Nat) (off n : Nat) : List Nat :=
  (List.range n).map (fun i => rng (off + i) % 256)

namespace MultiLayer

/-- `EncryptionLayer` from `multi_layer.rs`: one fixed 256-bit key and one
fixed 96-bit nonce (`key: [u8; 32]`, `nonce: [u8; 12]`). -/
structure EncryptionLayer where
  key : List Nat
  nonce : List Nat
deriving Repr, DecidableEq

/-- `EncryptionLayer::new`: draw a random 32-byte key and 12-byte nonce. -/
def EncryptionLayer.new (rng : Nat → Nat) (off : Nat) : EncryptionLayer :=
  { key := fillBytes rng off 32, nonce := fillBytes rng (off + 32) 12 }

/-- `EncryptionLayer::encrypt`: build the AEAD key (`UnboundKey::new` fails
exactly when the key is not 32 bytes), seal the data appending the tag, and
prepend the layer's nonce. -/
def EncryptionLayer.encrypt (l : EncryptionLayer) (data : List Nat) :
    Except String (List Nat) :=
  if l.key.length ≠ 32 then .error "Anahtar oluşturma hatası"
  else .ok (l.nonce ++ seal_in_place_append_tag l.key l.nonce data)

/-- The `(key, nonce)` pair `EncryptionLayer::encrypt` passes to
`seal_in_place_append_tag` on a given call: from the source it is always
`(self.key, self.nonce)`, independent of the data being sealed. -/
def EncryptionLayer.encrypt_key_nonce_used (l : EncryptionLayer)
    (_data : List Nat) : List Nat × List Nat :=
  (l.key, l.nonce)

/-- `EncryptionLayer::decrypt`: reject inputs shorter than the nonce, strip
the nonce-length prefix, then AEAD-open the rest with the layer's own fixed
key and nonce. -/
def EncryptionLayer.decrypt (l : EncryptionLayer) (data : List Nat) :
    Except String (List Nat) :=
  if data.length < l.nonce.length then .error "Geçersiz şifrelenmiş veri"
  else
    let ciphertext := data.drop l.nonce.length
    if l.key.length ≠ 32 then .error "Anahtar oluşturma hatası"
    else
      match open_in_place l.key l.nonce ciphertext with
      | none => .error "Şifre çözme hatası"
      | some pt => .ok pt

/-- `MultiLayerEncryption` from `multi_layer.rs`. -/
structure MultiLayerEncryption where
  layer_count : Nat
  layers : List EncryptionLayer

/-- `MultiLayerEncryption::new(layer_count)`: generate `layer_count` fresh
layers, each drawing 32 + 12 bytes from the oracle. -/
def MultiLayerEncryption.new (layer_count : Nat) (rng : Nat → Nat) :
    MultiLayerEncryption :=
  { layer_count
    layers := (List.range layer_count).map
      (fun i => EncryptionLayer.new rng (i * 44)) }

/-- `MultiLayerEncryption::encrypt`: fold each layer's encrypt over the
data, layer 0 first. -/
def MultiLayerEncryption.encrypt (m : MultiLayerEncryption)
    (data : List Nat) : Except String (List Nat) :=
  m.layers.foldlM (fun cur l => l.encrypt cur) data

/-- `MultiLayerEncryption::decrypt`: fold each layer's decrypt over the
data in reverse layer order. -/
def MultiLayerEncryption.decrypt (m : MultiLayerEncryption)
    (data : List Nat) : Except String (List Nat) :=
  m.layers.reverse.foldlM (fun cur l => l.decrypt cur) data

end MultiLayer

-- ### Supporting lemmas about the AEAD model

theorem xorKs_length (key nonce : List Nat) (i : Nat) (bs : List Nat) :
    (xorKs key nonce i bs).length = bs.length := by
  induction bs generalizing i with
  | nil => rfl
  | cons b bs ih => simp [xorKs, ih]

theorem xorKs_involutive (key nonce : List Nat) (i : Nat) (bs : List Nat) :
    xorKs key nonce i (xorKs key nonce i bs) = bs := by
  induction bs generalizing i with
  | nil => rfl
  | cons b bs ih =>
    simp [xorKs, ih, Nat.xor_assoc]

theorem polyTag_length (key nonce ct : List Nat) :
    (polyTag key nonce ct).length = 16 := by
  simp [polyTag]

theorem seal_length (key nonce pt : List Nat) :
    (seal_in_place_append_tag key nonce pt).length = pt.length + 16 := by
  simp [seal_in_place_append_tag, xorKs_length, polyTag_length]

theorem open_seal (key nonce pt : List Nat) :
    open_in_place key nonce (seal_in_place_append_tag key nonce pt) =
      some pt := by
  have hlen : (seal_in_place_append_tag key nonce pt).length = pt.length + 16 :=
    seal_length key nonce pt
  have hct : (xorKs key nonce 0 pt).length = pt.length := xorKs_length _ _ _ _
  unfold open_in_place seal_in_place_append_tag
  simp only [List.length_append, hct, polyTag_length]
  rw [if_neg (by omega)]
  have htake : ((xorKs key nonce 0 pt) ++ polyTag key nonce (xorKs key nonce 0 pt)).take
      (pt.length + 16 - 16) = xorKs key nonce 0 pt := by
    rw [Nat.add_sub_cancel, ← hct, List.take_left]
  have hdrop : ((xorKs key nonce 0 pt) ++ polyTag key nonce (xorKs key nonce 0 pt)).drop
      (pt.length + 16 - 16) = polyTag key nonce (xorKs key nonce 0 pt) := by
    rw [Nat.add_sub_cancel, ← hct, List.drop_left]
  rw [htake, hdrop, if_pos rfl, xorKs_involutive]

namespace MultiLayer

theorem layer_encrypt_ok (l : EncryptionLayer) (d : List Nat)
    (h : l.key.length = 32) :
    l.encrypt d = .ok (l.nonce ++ seal_in_place_append_tag l.key l.nonce d) := by
  simp [EncryptionLayer.encrypt, h]

theorem layer_roundtrip (l : EncryptionLayer) (d : List Nat)
    (h : l.key.length = 32) :
    (l.encrypt d).bind l.decrypt = .ok d := by
  rw [layer_encrypt_ok l d h]
  show l.decrypt _ = _
  unfold EncryptionLayer.decrypt
  have hlen : (l.nonce ++ seal_in_place_append_tag l.key l.nonce d).length =
      l.nonce.length + (d.length + 16) := by
    simp [seal_length]
  rw [if_neg (by omega), if_neg (by omega)]
  simp only [List.drop_left, open_seal]

/-- Any layer produced by `EncryptionLayer::new` has a 32-byte key. -/
theorem layer_new_key_length (rng : Nat → Nat) (off : Nat) :
    (EncryptionLayer.new rng off).key.length = 32 := by
  simp [EncryptionLayer.new, fillBytes]

/-- The encrypt fold of `MultiLayerEncryption::encrypt`, written out. -/
def encChain (layers : List EncryptionLayer) (d : List Nat) :
    Except String (List Nat) :=
  layers.foldlM (fun (cur : List Nat) (l : EncryptionLayer) => l.encrypt cur) d

/-- The decrypt fold of `MultiLayerEncryption::decrypt` (already reversed). -/
def decChain (layers : List EncryptionLayer) (d : List Nat) :
    Except String (List Nat) :=
  layers.foldlM (fun (cur : List Nat) (l : EncryptionLayer) => l.decrypt cur) d

theorem ml_encrypt_eq_encChain (m : MultiLayerEncryption) (d : List Nat) :
    m.encrypt d = encChain m.layers d := rfl

theorem ml_decrypt_eq_decChain (m : MultiLayerEncryption) (d : List Nat) :
    m.decrypt d = decChain m.layers.reverse d := rfl

theorem decChain_append (xs ys : List EncryptionLayer) (d : List Nat) :
    decChain (xs ++ ys) d = (decChain xs d).bind (decChain ys) := by
  induction xs generalizing d with
  | nil => rfl
  | cons x xs ih =>
    show (x.decrypt d).bind (decChain (xs ++ ys)) =
      ((x.decrypt d).bind (decChain xs)).bind (decChain ys)
    cases x.decrypt d with
    | error e => rfl
    | ok v => simpa [Except.bind] using ih v

theorem chain_roundtrip (layers : List EncryptionLayer)
    (hk : ∀ l ∈ layers, l.key.length = 32) (d : List Nat) :
    (encChain layers d).bind (decChain layers.reverse) = .ok d := by
  induction layers generalizing d with
  | nil => rfl
  | cons l ls ih =>
    have hl : l.key.length = 32 := hk l (by simp)
    have hls : ∀ x ∈ ls, x.key.length = 32 := fun x hx => hk x (by simp [hx])
    have henc1 : encChain (l :: ls) d =
        encChain ls (l.nonce ++ seal_in_place_append_tag l.key l.nonce d) := by
      show (l.encrypt d).bind (encChain ls) = _
      rw [layer_encrypt_ok l d hl]
      rfl
    rw [henc1, List.reverse_cons]
    have hrt := layer_roundtrip l d hl
    rw [layer_encrypt_ok l d hl] at hrt
    have ih2 := ih hls (l.nonce ++ seal_in_place_append_tag l.key l.nonce d)
    cases henc : encChain ls
        (l.nonce ++ seal_in_place_append_tag l.key l.nonce d) with
    | error e =>
      rw [henc] at ih2
      exact absurd ih2 (by simp [Except.bind])
    | ok ct =>
      rw [henc] at ih2
      simp only [Except.bind] at ih2 ⊢
      rw [decChain_append, ih2]
      simpa [decChain, Except.bind] using hrt

/-- Any layer produced by `EncryptionLayer::new` has a 12-byte nonce. -/
theorem layer_new_nonce_length (rng : Nat → Nat) (off : Nat) :
    (EncryptionLayer.new rng off).nonce.length = 12 := by
  simp [EncryptionLayer.new, fillBytes]

theorem encChain_length (layers : List EncryptionLayer)
    (hk : ∀ l ∈ layers, l.key.length = 32)
    (hn : ∀ l ∈ layers, l.nonce.length = 12) (d : List Nat) :
    ∃ ct, encChain layers d = .ok ct ∧
      ct.length = d.length + layers.length * 28 := by
  induction layers generalizing d with
  | nil => exact ⟨d, rfl, by simp⟩
  | cons l ls ih =>
    have hl : l.key.length = 32 := hk l (by simp)
    have hnl : l.nonce.length = 12 := hn l (by simp)
    have hstep : encChain (l :: ls) d =
        encChain ls (l.nonce ++ seal_in_place_append_tag l.key l.nonce d) := by
      show (l.encrypt d).bind (encChain ls) = _
      rw [layer_encrypt_ok l d hl]
      rfl
    obtain ⟨ct, hct, hlen⟩ := ih (fun x hx => hk x (by simp [hx]))
      (fun x hx => hn x (by simp [hx]))
      (l.nonce ++ seal_in_place_append_tag l.key l.nonce d)
    refine ⟨ct, by rw [hstep, hct], ?_⟩
    rw [hlen]
    simp only [List.length_append, seal_length, hnl, List.length_cons]
    ring

theorem ml_new_layers_key_length (n : Nat) (rng : Nat → Nat) :
    ∀ l ∈ (MultiLayerEncryption.new n rng).layers, l.key.length = 32 := by
  intro l hl
  simp only [MultiLayerEncryption.new, List.mem_map] at hl
  obtain ⟨i, _, rfl⟩ := hl
  exact layer_new_key_length rng (i * 44)

theorem ml_new_layers_nonce_length (n : Nat) (rng : Nat → Nat) :
    ∀ l ∈ (MultiLayerEncryption.new n rng).layers, l.nonce.length = 12 := by
  intro l hl
  simp only [MultiLayerEncryption.new, List.mem_map] at hl
  obtain ⟨i, _, rfl⟩ := hl
  exact layer_new_nonce_length rng (i * 44)

/-- Claim C2: for every layer count N and every byte string d, on a
`MultiLayerEncryption` instance built by `new`, decrypt of encrypt of d
returns exactly d (encrypt applies layer 0 first through layer N-1 last;
decrypt peels layer N-1 first down to layer 0). -/
theorem C2_multi_layer_roundtrip (n : Nat) (rng : Nat → Nat) (d : List Nat) :
    ((MultiLayerEncryption.new n rng).encrypt d).bind
      ((MultiLayerEncryption.new n rng).decrypt) = .ok d := by
  have h := chain_roundtrip (MultiLayerEncryption.new n rng).layers
    (ml_new_layers_key_length n rng) d
  rw [ml_encrypt_eq_encChain]
  calc (encChain (MultiLayerEncryption.new n rng).layers d).bind
        ((MultiLayerEncryption.new n rng).decrypt)
      = (encChain (MultiLayerEncryption.new n rng).layers d).bind
        (decChain (MultiLayerEncryption.new n rng).layers.reverse) := by
        cases encChain (MultiLayerEncryption.new n rng).layers d <;> rfl
    _ = .ok d := h

/-- Claim C9: for every byte string d and an N-layer instance built by
`new`, encrypt succeeds and the output length is exactly
len(d) + N * (12 + 16): each layer prepends its 12-byte nonce and the AEAD
seal appends a 16-byte tag, once per layer. -/
theorem C9_multi_layer_encrypt_length (n : Nat) (rng : Nat → Nat)
    (d : List Nat) :
    ∃ ct, (MultiLayerEncryption.new n rng).encrypt d = .ok ct ∧
      ct.length = d.length + n * (12 + 16) := by
  obtain ⟨ct, hct, hlen⟩ := encChain_length
    (MultiLayerEncryption.new n rng).layers
    (ml_new_layers_key_length n rng) (ml_new_layers_nonce_length n rng) d
  refine ⟨ct, ?_, ?_⟩
  · rw [ml_encrypt_eq_encChain, hct]
  · rw [hlen]
    simp [MultiLayerEncryption.new]

/-- Claim C4 counterexample: on a concrete `EncryptionLayer`, two distinct
calls to encrypt seal the two different plaintexts [0] and [1] under the
same (key, nonce) pair — both calls succeed and produce distinct sealed
outputs, falsifying nonce uniqueness per key. -/
theorem C4_nonce_reuse_counterexample :
    (([0] : List Nat) ≠ [1]) ∧
    EncryptionLayer.encrypt_key_nonce_used
        (EncryptionLayer.new (fun i => i) 0) [0] =
      EncryptionLayer.encrypt_key_nonce_used
        (EncryptionLayer.new (fun i => i) 0) [1] ∧
    ((EncryptionLayer.new (fun i => i) 0).encrypt [0]).isOk = true ∧
    ((EncryptionLayer.new (fun i => i) 0).encrypt [1]).isOk = true ∧
    ((EncryptionLayer.new (fun i => i) 0).encrypt [0]).toOption ≠
      ((EncryptionLayer.new (fun i => i) 0).encrypt [1]).toOption := by
  refine ⟨by decide, rfl, by decide, by decide, by decide⟩

/-- Claim C4 amended: each `EncryptionLayer` holds one fixed (key, nonce)
pair; every call to encrypt on that layer seals under that same pair
(prepending the same fixed nonce), so two distinct calls on the same layer
reuse the (key, nonce) pair rather than never reusing it.  Independent
pairs exist only across the different layers of an instance. -/
theorem C4_layer_fixed_key_nonce (l : EncryptionLayer) (d1 d2 : List Nat)
    (h : l.key.length = 32) :
    EncryptionLayer.encrypt_key_nonce_used l d1 =
      EncryptionLayer.encrypt_key_nonce_used l d2 ∧
    l.encrypt d1 = .ok (l.nonce ++ seal_in_place_append_tag l.key l.nonce d1) ∧
    l.encrypt d2 = .ok (l.nonce ++ seal_in_place_append_tag l.key l.nonce d2) :=
  ⟨rfl, layer_encrypt_ok l d1 h, layer_encrypt_ok l d2 h⟩

/-- Witness for the amended C4 theorem at a concrete layer and inputs. -/
theorem C4_layer_fixed_key_nonce_witness :
    (EncryptionLayer.new (fun i => i + 3) 0).key.length = 32 ∧
    (EncryptionLayer.encrypt_key_nonce_used
        (EncryptionLayer.new (fun i => i + 3) 0) [7] =
      EncryptionLayer.encrypt_key_nonce_used
        (EncryptionLayer.new (fun i => i + 3) 0) [9] ∧
    (EncryptionLayer.new (fun i => i + 3) 0).encrypt [7] =
      .ok ((EncryptionLayer.new (fun i => i + 3) 0).nonce ++
        seal_in_place_append_tag (EncryptionLayer.new (fun i => i + 3) 0).key
          (EncryptionLayer.new (fun i => i + 3) 0).nonce [7]) ∧
    (EncryptionLayer.new (fun i => i + 3) 0).encrypt [9] =
      .ok ((EncryptionLayer.new (fun i => i + 3) 0).nonce ++
        seal_in_place_append_tag (EncryptionLayer.new (fun i => i + 3) 0).key
          (EncryptionLayer.new (fun i => i + 3) 0).nonce [9])) :=
  ⟨by decide, C4_layer_fixed_key_nonce (EncryptionLayer.new (fun i => i + 3) 0)
    [7] [9] (by decide)⟩

end MultiLayer

namespace AnonProtocol

/-!
Embedding of `anon_protocol.rs`.  The wire format of `AnonMessage` is the
hand-written `prost::Message` impl: each of the six fields is emitted with
`prost::encoding::message::encode(tag, value, buf)`, i.e. as a
length-delimited nested message, where the nested message is the prost
well-known wrapper encoding of the scalar (field 1 inside the wrapper,
omitted when the value is the default).  Decoding merges into a default
message, dispatching tags 1-6 and skipping unknown fields.
-/

/-- prost `encode_varint`, fueled: emit seven value bits per byte with a
continuation bit while the value needs more.  Ten bytes of fuel cover every
u64 value, which is exactly the domain prost encodes. -/
def encodeVarintGo : Nat → Nat → List Nat
  | 0, n => [n]
  | fuel + 1, n =>
    if n < 128 then [n]
    else (n % 128 + 128) :: encodeVarintGo fuel (n / 128)

/-- prost `encode_varint` of a u64 value. -/
def encodeVarint (n : Nat) : List Nat :=
  encodeVarintGo 10 n

/-- prost `decode_varint`, reading byte number `k` (0-based): at most ten
bytes, and the tenth byte must be 0 or 1 so that the value fits in 64
bits. -/
def decodeVarintGo : Nat → List Nat → Option (Nat × List Nat)
  | _, [] => none
  | k, b :: rest =>
    if k = 9 then
      if b ≤ 1 then some (b, rest) else none
    else if b < 128 then some (b, rest)
    else
      match decodeVarintGo (k + 1) rest with
      | some (v, r) => some (b % 128 + 128 * v, r)
      | none => none

/-- prost `decode_varint` on a buffer. -/
def decodeVarint (buf : List Nat) : Option (Nat × List Nat) :=
  decodeVarintGo 0 buf

/-- prost `encode_key`: varint of `tag << 3 | wire_type`. -/
def encode_key (tag wt : Nat) : List Nat :=
  encodeVarint (tag * 8 + wt)

/-- prost `decode_key`: decode a varint, reject keys above `u32::MAX`, wire
types 6 and 7, and tag 0. -/
def decode_key (buf : List Nat) : Option (Nat × Nat × List Nat) :=
  match decodeVarint buf with
  | none => none
  | some (v, rest) =>
    if 4294967295 < v then none
    else
      let tag := v / 8
      let wt := v % 8
      if 6 ≤ wt then none
      else if tag = 0 then none
      else some (tag, wt, rest)

mutual

/-- prost `skip_field`: skip one field body of the given wire type
(varint / 64-bit / length-delimited / 32-bit / group). -/
def skip_field (fuel : Nat) (wt : Nat) (buf : List Nat) : Option (List Nat) :=
  match fuel with
  | 0 => none
  | fuel + 1 =>
    if wt = 0 then
      match decodeVarint buf with
      | some (_, rest) => some rest
      | none => none
    else if wt = 1 then
      if 8 ≤ buf.length then some (buf.drop 8) else none
    else if wt = 2 then
      match decodeVarint buf with
      | some (len, rest) =>
        if len ≤ rest.length then some (rest.drop len) else none
      | none => none
    else if wt = 5 then
      if 4 ≤ buf.length then some (buf.drop 4) else none
    else if wt = 3 then skip_group fuel buf
    else none

/-- The start-group case of prost `skip_field`: skip nested fields until
the matching end-group key. -/
def skip_group (fuel : Nat) (buf : List Nat) : Option (List Nat) :=
  match fuel with
  | 0 => none
  | fuel + 1 =>
    match decode_key buf with
    | none => none
    | some (_, wt, rest) =>
      if wt = 4 then some rest
      else
        match skip_field fuel wt rest with
        | some rest2 => skip_group fuel rest2
        | none => none

end

/-- The merge loop of a prost well-known wrapper message: repeatedly decode
a key from the (already length-limited) buffer, merge the scalar at tag 1
via `scalarMerge`, skip any other field; succeeds when the buffer is
consumed exactly. -/
def wrapper_merge_loop {α : Type} (scalarMerge : Nat → α → List Nat → Option (α × List Nat))
    (fuel : Nat) (v : α) (buf : List Nat) : Option α :=
  match fuel with
  | 0 => none
  | fuel + 1 =>
    match buf with
    | [] => some v
    | _ :: _ =>
      match decode_key buf with
      | none => none
      | some (tag, wt, rest) =>
        if tag = 1 then
          match scalarMerge wt v rest with
          | some (v2, rest2) => wrapper_merge_loop scalarMerge fuel v2 rest2
          | none => none
        else
          match skip_field fuel wt rest with
          | some rest2 => wrapper_merge_loop scalarMerge fuel v rest2
          | none => none

/-- prost `uint64::merge`: wire type must be varint; the decoded value
replaces the field. -/
def merge_uint64 (wt : Nat) (_v : Nat) (buf : List Nat) :
    Option (Nat × List Nat) :=
  if wt = 0 then decodeVarint buf else none

/-- prost `uint32::merge`: decode a varint and truncate to 32 bits
(`as u32`). -/
def merge_uint32 (wt : Nat) (_v : Nat) (buf : List Nat) :
    Option (Nat × List Nat) :=
  if wt = 0 then
    match decodeVarint buf with
    | some (n, rest) => some (n % 4294967296, rest)
    | none => none
  else none

/-- Reinterpret the low 32 bits of a u64 as a two's-complement i32
(prost `int32::merge` does `decode_varint(buf)? as i32`). -/
def i32OfLow (n : Nat) : Int :=
  let w := n % 4294967296
  if w < 2147483648 then (w : Int) else (w : Int) - 4294967296

/-- prost `int32::merge`. -/
def merge_int32 (wt : Nat) (_v : Int) (buf : List Nat) :
    Option (Int × List Nat) :=
  if wt = 0 then
    match decodeVarint buf with
    | some (n, rest) => some (i32OfLow n, rest)
    | none => none
  else none

/-- prost `bytes::merge`: wire type must be length-delimited; read the
length, take that many bytes and replace the field value with them. -/
def merge_bytes (wt : Nat) (_v : List Nat) (buf : List Nat) :
    Option (List Nat × List Nat) :=
  if wt = 2 then
    match decodeVarint buf with
    | some (len, rest) =>
      if len ≤ rest.length then some (rest.take len, rest.drop len) else none
    | none => none
  else none

/-- UTF-8 validity of a byte string, as checked by Rust
`String::from_utf8` (RFC 3629: no overlong forms, no surrogates, max
U+10FFFF). -/
def validUtf8 : List Nat → Bool
  | [] => true
  | b :: rest =>
    if b < 128 then validUtf8 rest
    else if b < 194 then false
    else if b < 224 then
      match rest with
      | c :: r => if 128 ≤ c ∧ c < 192 then validUtf8 r else false
      | [] => false
    else if b = 224 then
      match rest with
      | c :: d :: r =>
        if (160 ≤ c ∧ c < 192) ∧ (128 ≤ d ∧ d < 192) then validUtf8 r
        else false
      | _ => false
    else if b < 237 then
      match rest with
      | c :: d :: r =>
        if (128 ≤ c ∧ c < 192) ∧ (128 ≤ d ∧ d < 192) then validUtf8 r
        else false
      | _ => false
    else if b = 237 then
      match rest with
      | c :: d :: r =>
        if (128 ≤ c ∧ c < 160) ∧ (128 ≤ d ∧ d < 192) then validUtf8 r
        else false
      | _ => false
    else if b < 240 then
      match rest with
      | c :: d :: r =>
        if (128 ≤ c ∧ c < 192) ∧ (128 ≤ d ∧ d < 192) then validUtf8 r
        else false
      | _ => false
    else if b = 240 then
      match rest with
      | c :: d :: e :: r =>
        if (144 ≤ c ∧ c < 192) ∧ (128 ≤ d ∧ d < 192) ∧ (128 ≤ e ∧ e < 192)
        then validUtf8 r else false
      | _ => false
    else if b < 244 then
      match rest with
      | c :: d :: e :: r =>
        if (128 ≤ c ∧ c < 192) ∧ (128 ≤ d ∧ d < 192) ∧ (128 ≤ e ∧ e < 192)
        then validUtf8 r else false
      | _ => false
    else if b = 244 then
      match rest with
      | c :: d :: e :: r =>
        if (128 ≤ c ∧ c < 144) ∧ (128 ≤ d ∧ d < 192) ∧ (128 ≤ e ∧ e < 192)
        then validUtf8 r else false
      | _ => false
    else false

/-- prost `string::merge`: bytes merge followed by UTF-8 validation
(`String::from_utf8`). -/
def merge_string (wt : Nat) (v : List Nat) (buf : List Nat) :
    Option (List Nat × List Nat) :=
  match merge_bytes wt v buf with
  | some (s, rest) => if validUtf8 s then some (s, rest) else none
  | none => none

/-- `encode_raw` of the prost u64 wrapper (well-known `UInt64Value`):
field 1 as a varint, omitted when the value is 0. -/
def wrap_uint64_raw (v : Nat) : List Nat :=
  if v = 0 then [] else encode_key 1 0 ++ encodeVarint v

/-- `encode_raw` of the prost u32 wrapper: field 1 as a varint, omitted
when 0. -/
def wrap_uint32_raw (v : Nat) : List Nat :=
  if v = 0 then [] else encode_key 1 0 ++ encodeVarint v

/-- `encode_raw` of the prost i32 wrapper: field 1 as the varint of the
value cast to u64 (sign-extending), omitted when 0. -/
def wrap_int32_raw (v : Int) : List Nat :=
  if v = 0 then []
  else encode_key 1 0 ++ encodeVarint ((v % 18446744073709551616).toNat)

/-- `encode_raw` of the prost bytes wrapper: field 1 length-delimited,
omitted when empty. -/
def wrap_bytes_raw (v : List Nat) : List Nat :=
  if v = [] then [] else encode_key 1 2 ++ encodeVarint v.length ++ v

/-- `encode_raw` of the prost String wrapper: same wire format as bytes
(the string is emitted as its UTF-8 bytes). -/
def wrap_string_raw (v : List Nat) : List Nat :=
  wrap_bytes_raw v

/-- prost `encoding::message::encode(tag, value, buf)`: key with wire type
2, the encoded length of the nested message, then its `encode_raw`
output. -/
def field_enc (tag : Nat) (raw : List Nat) : List Nat :=
  encode_key tag 2 ++ encodeVarint raw.length ++ raw

/-- `AnonMessage` from `anon_protocol.rs`; `temp_id` is the UTF-8 byte
string of the Rust `String`. -/
structure AnonMessage where
  msg_type : Int
  timestamp : Nat
  temp_id : List Nat
  payload : List Nat
  signature : List Nat
  hop_count : Nat
deriving Repr, DecidableEq

/-- `Default::default()` / `clear` for `AnonMessage`. -/
def AnonMessage.default : AnonMessage :=
  { msg_type := 0, timestamp := 0, temp_id := [], payload := []
    signature := [], hop_count := 0 }

/-- `AnonMessage::encode_raw`: the six fields in tag order, each as a
length-delimited wrapper message. -/
def AnonMessage.encode_raw (m : AnonMessage) : List Nat :=
  field_enc 1 (wrap_int32_raw m.msg_type) ++
  field_enc 2 (wrap_uint64_raw m.timestamp) ++
  field_enc 3 (wrap_string_raw m.temp_id) ++
  field_enc 4 (wrap_bytes_raw m.payload) ++
  field_enc 5 (wrap_bytes_raw m.signature) ++
  field_enc 6 (wrap_uint32_raw m.hop_count)

/-- `Message::encode` for `AnonMessage` (writes `encode_raw` to the
buffer). -/
def AnonMessage.encode (m : AnonMessage) : List Nat :=
  m.encode_raw

/-- prost `encoding::message::merge` for one `AnonMessage` field: wire type
must be 2; read the nested length, run the wrapper merge loop on exactly
that many bytes. -/
def message_field_merge {α : Type}
    (scalarMerge : Nat → α → List Nat → Option (α × List Nat))
    (fuel : Nat) (wt : Nat) (v : α) (buf : List Nat) :
    Option (α × List Nat) :=
  if wt ≠ 2 then none
  else
    match decodeVarint buf with
    | none => none
    | some (len, rest) =>
      if rest.length < len then none
      else
        match wrapper_merge_loop scalarMerge fuel v (rest.take len) with
        | some v2 => some (v2, rest.drop len)
        | none => none

/-- `AnonMessage::merge_field`: dispatch on the tag, merging the matching
field through the wrapper codec, and skip unknown tags. -/
def AnonMessage.merge_field (fuel : Nat) (m : AnonMessage) (tag wt : Nat)
    (buf : List Nat) : Option (AnonMessage × List Nat) :=
  if tag = 1 then
    match message_field_merge merge_int32 fuel wt m.msg_type buf with
    | some (v, rest) => some ({ m with msg_type := v }, rest)
    | none => none
  else if tag = 2 then
    match message_field_merge merge_uint64 fuel wt m.timestamp buf with
    | some (v, rest) => some ({ m with timestamp := v }, rest)
    | none => none
  else if tag = 3 then
    match message_field_merge merge_string fuel wt m.temp_id buf with
    | some (v, rest) => some ({ m with temp_id := v }, rest)
    | none => none
  else if tag = 4 then
    match message_field_merge merge_bytes fuel wt m.payload buf with
    | some (v, rest) => some ({ m with payload := v }, rest)
    | none => none
  else if tag = 5 then
    match message_field_merge merge_bytes fuel wt m.signature buf with
    | some (v, rest) => some ({ m with signature := v }, rest)
    | none => none
  else if tag = 6 then
    match message_field_merge merge_uint32 fuel wt m.hop_count buf with
    | some (v, rest) => some ({ m with hop_count := v }, rest)
    | none => none
  else
    match skip_field fuel wt buf with
    | some rest => some (m, rest)
    | none => none

/-- The top-level merge loop of `Message::merge`: decode keys and merge
fields until the buffer is exhausted. -/
def AnonMessage.merge_loop (fuel : Nat) (m : AnonMessage) (buf : List Nat) :
    Option AnonMessage :=
  match fuel with
  | 0 => none
  | fuel + 1 =>
    match buf with
    | [] => some m
    | _ :: _ =>
      match decode_key buf with
      | none => none
      | some (tag, wt, rest) =>
        match AnonMessage.merge_field fuel m tag wt rest with
        | some (m2, rest2) => AnonMessage.merge_loop fuel m2 rest2
        | none => none

/-- `AnonMessage::decode`: merge into the default message over the whole
buffer.  The fuel `2 * len + 8` strictly exceeds the number of loop steps
the (fuel-free) prost decoder can take on a buffer of this length — every
loop iteration consumes at least one byte and every nesting level costs a
bounded number of extra steps — so the model agrees with the source on
every input. -/
def AnonMessage.decode (buf : List Nat) : Option AnonMessage :=
  AnonMessage.merge_loop (2 * buf.length + 8) AnonMessage.default buf

-- ### Varint and key roundtrip lemmas

theorem encodeVarintGo_length (fuel n : Nat) :
    (encodeVarintGo fuel n).length ≤ fuel + 1 := by
  induction fuel generalizing n with
  | zero => simp [encodeVarintGo]
  | succ fuel ih =>
    unfold encodeVarintGo
    split
    · simp
    · simpa using Nat.succ_le_succ (ih (n / 128))

theorem encodeVarint_length (n : Nat) : (encodeVarint n).length ≤ 11 :=
  encodeVarintGo_length 10 n

theorem encodeVarintGo_ne_nil (fuel n : Nat) : encodeVarintGo fuel n ≠ [] := by
  cases fuel with
  | zero => simp [encodeVarintGo]
  | succ fuel =>
    unfold encodeVarintGo
    split <;> simp

theorem encodeVarint_ne_nil (n : Nat) : encodeVarint n ≠ [] :=
  encodeVarintGo_ne_nil 10 n

theorem decodeVarintGo_encodeGo (fuel : Nat) :
    ∀ (k n : Nat) (rest : List Nat), k + fuel = 10 → k ≤ 9 →
      n < 2 ^ (64 - 7 * k) →
      decodeVarintGo k (encodeVarintGo fuel n ++ rest) = some (n, rest) := by
  induction fuel with
  | zero => intro k n rest hkf hk hn; omega
  | succ fuel ih =>
    intro k n rest hkf hk hn
    by_cases h : n < 128
    · rw [encodeVarintGo, if_pos h]
      show decodeVarintGo k (n :: rest) = some (n, rest)
      unfold decodeVarintGo
      by_cases hk9 : k = 9
      · subst hk9
        have hb : n ≤ 1 := by
          have h2 : (2 : Nat) ^ (64 - 7 * 9) = 2 := by norm_num
          rw [h2] at hn
          omega
        simp [hb]
      · simp [hk9, h]
    · rw [encodeVarintGo, if_neg h]
      push_neg at h
      have hk8 : k ≤ 8 := by
        rcases Nat.lt_or_ge k 9 with hlt | hge
        · omega
        · exfalso
          have hk9 : k = 9 := by omega
          subst hk9
          have h2 : (2 : Nat) ^ (64 - 7 * 9) = 2 := by norm_num
          rw [h2] at hn
          omega
      have hdiv : n / 128 < 2 ^ (64 - 7 * (k + 1)) := by
        have ha : 64 - 7 * k = (64 - 7 * (k + 1)) + 7 := by omega
        rw [ha, pow_add] at hn
        exact (Nat.div_lt_iff_lt_mul (by norm_num)).mpr (by simpa using hn)
      have hrec := ih (k + 1) (n / 128) rest (by omega) (by omega) hdiv
      show decodeVarintGo k ((n % 128 + 128) :: (encodeVarintGo fuel (n / 128) ++ rest)) =
        some (n, rest)
      unfold decodeVarintGo
      rw [if_neg (by omega), if_neg (by omega), hrec]
      have : n % 128 + 128 * (n / 128) = n := by omega
      simp [this]

theorem decodeVarint_encode (n : Nat) (rest : List Nat)
    (hn : n < 18446744073709551616) :
    decodeVarint (encodeVarint n ++ rest) = some (n, rest) := by
  have h64 : (2 : Nat) ^ (64 - 7 * 0) = 18446744073709551616 := by norm_num
  exact decodeVarintGo_encodeGo 10 0 n rest (by omega) (by omega) (by omega)

theorem decode_key_encode (tag wt : Nat) (rest : List Nat)
    (htag : 1 ≤ tag) (hwt : wt < 6) (hv : tag * 8 + wt ≤ 4294967295) :
    decode_key (encode_key tag wt ++ rest) = some (tag, wt, rest) := by
  unfold decode_key encode_key
  rw [decodeVarint_encode (tag * 8 + wt) rest (by omega)]
  have h1 : (tag * 8 + wt) % 8 = wt := by omega
  have h2 : (tag * 8 + wt) / 8 = tag := by omega
  simp only [h1, h2]
  rw [if_neg (by omega), if_neg (by omega), if_neg (by omega)]

-- ### Wrapper merge-loop evaluation on exact encodings

theorem wrapper_merge_loop_nil {α : Type}
    (sm : Nat → α → List Nat → Option (α × List Nat)) (fuel : Nat) (v : α) :
    wrapper_merge_loop sm (fuel + 1) v [] = some v := rfl

theorem wrapper_merge_loop_cons {α : Type}
    (sm : Nat → α → List Nat → Option (α × List Nat)) (fuel : Nat) (v : α)
    (b : Nat) (bs : List Nat) :
    wrapper_merge_loop sm (fuel + 1) v (b :: bs) =
      match decode_key (b :: bs) with
      | none => none
      | some (tag, wt, rest) =>
        if tag = 1 then
          match sm wt v rest with
          | some (v2, rest2) => wrapper_merge_loop sm fuel v2 rest2
          | none => none
        else
          match skip_field fuel wt rest with
          | some rest2 => wrapper_merge_loop sm fuel v rest2
          | none => none := rfl

theorem wrapper_uint64_enc (g v : Nat) (hv : v < 18446744073709551616) :
    wrapper_merge_loop merge_uint64 (g + 2) 0 (wrap_uint64_raw v) = some v := by
  by_cases h0 : v = 0
  · subst h0; rfl
  · rw [wrap_uint64_raw, if_neg h0]
    have hbuf : encode_key 1 0 ++ encodeVarint v = 8 :: encodeVarint v := rfl
    have hkey : decode_key (8 :: encodeVarint v) = some (1, 0, encodeVarint v) := by
      have h := decode_key_encode 1 0 (encodeVarint v) (by norm_num) (by norm_num)
        (by norm_num)
      rw [hbuf] at h
      exact h
    have hdv : decodeVarint (encodeVarint v) = some (v, []) := by
      have h := decodeVarint_encode v [] hv
      rwa [List.append_nil] at h
    rw [hbuf, wrapper_merge_loop_cons, hkey]
    simp only [if_pos rfl, merge_uint64, if_true, hdv, wrapper_merge_loop_nil]

theorem wrapper_uint32_enc (g v : Nat) (hv : v < 4294967296) :
    wrapper_merge_loop merge_uint32 (g + 2) 0 (wrap_uint32_raw v) = some v := by
  by_cases h0 : v = 0
  · subst h0; rfl
  · rw [wrap_uint32_raw, if_neg h0]
    have hbuf : encode_key 1 0 ++ encodeVarint v = 8 :: encodeVarint v := rfl
    have hkey : decode_key (8 :: encodeVarint v) = some (1, 0, encodeVarint v) := by
      have h := decode_key_encode 1 0 (encodeVarint v) (by norm_num) (by norm_num)
        (by norm_num)
      rw [hbuf] at h
      exact h
    have hdv : decodeVarint (encodeVarint v) = some (v, []) := by
      have h := decodeVarint_encode v [] (by omega)
      rwa [List.append_nil] at h
    have hmod : v % 4294967296 = v := Nat.mod_eq_of_lt hv
    rw [hbuf, wrapper_merge_loop_cons, hkey]
    simp only [if_pos rfl, merge_uint32, if_true, hdv, hmod, wrapper_merge_loop_nil]

theorem i32OfLow_repr (v : Int) (h1 : -2147483648 ≤ v) (h2 : v < 2147483648) :
    i32OfLow ((v % 18446744073709551616).toNat) = v := by
  simp only [i32OfLow]
  split <;> omega

theorem wrapper_int32_enc (g : Nat) (v : Int) (h1 : -2147483648 ≤ v)
    (h2 : v < 2147483648) :
    wrapper_merge_loop merge_int32 (g + 2) 0 (wrap_int32_raw v) = some v := by
  by_cases h0 : v = 0
  · subst h0; rfl
  · rw [wrap_int32_raw, if_neg h0]
    have hbuf : encode_key 1 0 ++ encodeVarint ((v % 18446744073709551616).toNat) =
        8 :: encodeVarint ((v % 18446744073709551616).toNat) := rfl
    have hkey : decode_key (8 :: encodeVarint ((v % 18446744073709551616).toNat)) =
        some (1, 0, encodeVarint ((v % 18446744073709551616).toNat)) := by
      have h := decode_key_encode 1 0 (encodeVarint ((v % 18446744073709551616).toNat))
        (by norm_num) (by norm_num) (by norm_num)
      rw [hbuf] at h
      exact h
    have hdv : decodeVarint (encodeVarint ((v % 18446744073709551616).toNat)) =
        some ((v % 18446744073709551616).toNat, []) := by
      have h := decodeVarint_encode ((v % 18446744073709551616).toNat) [] (by omega)
      rwa [List.append_nil] at h
    rw [hbuf, wrapper_merge_loop_cons, hkey]
    simp only [if_pos rfl, merge_int32, if_true, hdv, i32OfLow_repr v h1 h2,
      wrapper_merge_loop_nil]

theorem wrapper_bytes_enc (g : Nat) (v : List Nat)
    (hv : v.length < 18446744073709551616) :
    wrapper_merge_loop merge_bytes (g + 2) [] (wrap_bytes_raw v) = some v := by
  by_cases h0 : v = []
  · subst h0; rfl
  · rw [wrap_bytes_raw, if_neg h0]
    have hbuf : encode_key 1 2 ++ encodeVarint v.length ++ v =
        10 :: (encodeVarint v.length ++ v) := by
      rw [List.append_assoc]
      rfl
    have hkey : decode_key (10 :: (encodeVarint v.length ++ v)) =
        some (1, 2, encodeVarint v.length ++ v) := by
      have h := decode_key_encode 1 2 (encodeVarint v.length ++ v)
        (by norm_num) (by norm_num) (by norm_num)
      rw [show encode_key 1 2 ++ (encodeVarint v.length ++ v) =
        10 :: (encodeVarint v.length ++ v) from rfl] at h
      exact h
    rw [hbuf, wrapper_merge_loop_cons, hkey]
    simp only [if_pos rfl, merge_bytes, if_true, decodeVarint_encode v.length v hv,
      Nat.le_refl, List.take_length, List.drop_length, wrapper_merge_loop_nil]

theorem wrapper_string_enc (g : Nat) (v : List Nat)
    (hv : v.length < 18446744073709551616) (hu : validUtf8 v = true) :
    wrapper_merge_loop merge_string (g + 2) [] (wrap_string_raw v) = some v := by
  by_cases h0 : v = []
  · subst h0; rfl
  · rw [wrap_string_raw, wrap_bytes_raw, if_neg h0]
    have hbuf : encode_key 1 2 ++ encodeVarint v.length ++ v =
        10 :: (encodeVarint v.length ++ v) := by
      rw [List.append_assoc]
      rfl
    have hkey : decode_key (10 :: (encodeVarint v.length ++ v)) =
        some (1, 2, encodeVarint v.length ++ v) := by
      have h := decode_key_encode 1 2 (encodeVarint v.length ++ v)
        (by norm_num) (by norm_num) (by norm_num)
      rw [show encode_key 1 2 ++ (encodeVarint v.length ++ v) =
        10 :: (encodeVarint v.length ++ v) from rfl] at h
      exact h
    rw [hbuf, wrapper_merge_loop_cons, hkey]
    simp only [if_pos rfl, merge_string, merge_bytes, if_true,
      decodeVarint_encode v.length v hv, Nat.le_refl, List.take_length,
      List.drop_length, hu, wrapper_merge_loop_nil]

-- ### Outer field steps of the AnonMessage merge loop

theorem merge_loop_nil (fuel : Nat) (m : AnonMessage) :
    AnonMessage.merge_loop (fuel + 1) m [] = some m := rfl

theorem merge_loop_cons (fuel : Nat) (m : AnonMessage) (b : Nat)
    (bs : List Nat) :
    AnonMessage.merge_loop (fuel + 1) m (b :: bs) =
      match decode_key (b :: bs) with
      | none => none
      | some (tag, wt, rest) =>
        match AnonMessage.merge_field fuel m tag wt rest with
        | some (m2, rest2) => AnonMessage.merge_loop fuel m2 rest2
        | none => none := rfl

theorem message_field_merge_enc {α : Type}
    (sm : Nat → α → List Nat → Option (α × List Nat)) (fuel : Nat)
    (v0 val : α) (raw rest : List Nat)
    (hlen : raw.length < 18446744073709551616)
    (hinner : wrapper_merge_loop sm fuel v0 raw = some val) :
    message_field_merge sm fuel 2 v0 (encodeVarint raw.length ++ (raw ++ rest)) =
      some (val, rest) := by
  unfold message_field_merge
  rw [if_neg (by decide), decodeVarint_encode raw.length (raw ++ rest) hlen]
  simp only [List.length_append]
  rw [if_neg (by omega), List.take_left, List.drop_left, hinner]

theorem wrap_uint64_raw_length (v : Nat) : (wrap_uint64_raw v).length ≤ 12 := by
  unfold wrap_uint64_raw
  split
  · simp
  · have h := encodeVarint_length v
    simp only [List.length_append]
    have hk : (encode_key 1 0).length = 1 := rfl
    omega

theorem wrap_uint32_raw_length (v : Nat) : (wrap_uint32_raw v).length ≤ 12 := by
  unfold wrap_uint32_raw
  split
  · simp
  · have h := encodeVarint_length v
    simp only [List.length_append]
    have hk : (encode_key 1 0).length = 1 := rfl
    omega

theorem wrap_int32_raw_length (v : Int) : (wrap_int32_raw v).length ≤ 12 := by
  unfold wrap_int32_raw
  split
  · simp
  · have h := encodeVarint_length ((v % 18446744073709551616).toNat)
    simp only [List.length_append]
    have hk : (encode_key 1 0).length = 1 := rfl
    omega

theorem wrap_bytes_raw_length (v : List Nat) :
    (wrap_bytes_raw v).length ≤ 12 + v.length := by
  unfold wrap_bytes_raw
  split
  · simp
  · have h := encodeVarint_length v.length
    simp only [List.length_append]
    have hk : (encode_key 1 2).length = 1 := rfl
    omega

theorem step_field_1 (f : Nat) (m : AnonMessage) (v : Int) (rest : List Nat)
    (h1 : -2147483648 ≤ v) (h2 : v < 2147483648) (hm : m.msg_type = 0) :
    AnonMessage.merge_loop (f + 3) m (field_enc 1 (wrap_int32_raw v) ++ rest) =
      AnonMessage.merge_loop (f + 2) { m with msg_type := v } rest := by
  have hlen : (wrap_int32_raw v).length < 18446744073709551616 := by
    have := wrap_int32_raw_length v
    omega
  have hmfm : message_field_merge merge_int32 (f + 2) 2 (0 : Int)
      (encodeVarint (wrap_int32_raw v).length ++ (wrap_int32_raw v ++ rest)) =
        some (v, rest) :=
    message_field_merge_enc merge_int32 (f + 2) 0 v _ rest hlen
      (wrapper_int32_enc f v h1 h2)
  have hkey : decode_key
      (10 :: (encodeVarint (wrap_int32_raw v).length ++ (wrap_int32_raw v ++ rest))) =
        some (1, 2, encodeVarint (wrap_int32_raw v).length ++
          (wrap_int32_raw v ++ rest)) :=
    decode_key_encode 1 2 _ (by norm_num) (by norm_num) (by norm_num)
  have hbufeq : field_enc 1 (wrap_int32_raw v) ++ rest =
      10 :: (encodeVarint (wrap_int32_raw v).length ++
        (wrap_int32_raw v ++ rest)) := by
    simp [field_enc, List.append_assoc]
    rfl
  rw [hbufeq, merge_loop_cons, hkey]
  simp [AnonMessage.merge_field, hm, hmfm]

theorem step_field_2 (f : Nat) (m : AnonMessage) (v : Nat) (rest : List Nat)
    (h1 : v < 18446744073709551616) (hm : m.timestamp = 0) :
    AnonMessage.merge_loop (f + 3) m (field_enc 2 (wrap_uint64_raw v) ++ rest) =
      AnonMessage.merge_loop (f + 2) { m with timestamp := v } rest := by
  have hlen : (wrap_uint64_raw v).length < 18446744073709551616 := by
    have := wrap_uint64_raw_length v
    omega
  have hmfm : message_field_merge merge_uint64 (f + 2) 2 (0 : Nat)
      (encodeVarint (wrap_uint64_raw v).length ++ (wrap_uint64_raw v ++ rest)) =
        some (v, rest) :=
    message_field_merge_enc merge_uint64 (f + 2) 0 v _ rest hlen
      (wrapper_uint64_enc f v h1)
  have hkey : decode_key
      (18 :: (encodeVarint (wrap_uint64_raw v).length ++ (wrap_uint64_raw v ++ rest))) =
        some (2, 2, encodeVarint (wrap_uint64_raw v).length ++
          (wrap_uint64_raw v ++ rest)) :=
    decode_key_encode 2 2 _ (by norm_num) (by norm_num) (by norm_num)
  have hbufeq : field_enc 2 (wrap_uint64_raw v) ++ rest =
      18 :: (encodeVarint (wrap_uint64_raw v).length ++
        (wrap_uint64_raw v ++ rest)) := by
    simp [field_enc, List.append_assoc]
    rfl
  rw [hbufeq, merge_loop_cons, hkey]
  simp [AnonMessage.merge_field, hm, hmfm]

theorem step_field_3 (f : Nat) (m : AnonMessage) (v : List Nat)
    (rest : List Nat) (h1 : v.length < 4294967296) (hu : validUtf8 v = true)
    (hm : m.temp_id = []) :
    AnonMessage.merge_loop (f + 3) m (field_enc 3 (wrap_string_raw v) ++ rest) =
      AnonMessage.merge_loop (f + 2) { m with temp_id := v } rest := by
  have hlen : (wrap_string_raw v).length < 18446744073709551616 := by
    have := wrap_bytes_raw_length v
    simp only [wrap_string_raw]
    omega
  have hmfm : message_field_merge merge_string (f + 2) 2 ([] : List Nat)
      (encodeVarint (wrap_string_raw v).length ++ (wrap_string_raw v ++ rest)) =
        some (v, rest) :=
    message_field_merge_enc merge_string (f + 2) [] v _ rest hlen
      (wrapper_string_enc f v (by omega) hu)
  have hkey : decode_key
      (26 :: (encodeVarint (wrap_string_raw v).length ++ (wrap_string_raw v ++ rest))) =
        some (3, 2, encodeVarint (wrap_string_raw v).length ++
          (wrap_string_raw v ++ rest)) :=
    decode_key_encode 3 2 _ (by norm_num) (by norm_num) (by norm_num)
  have hbufeq : field_enc 3 (wrap_string_raw v) ++ rest =
      26 :: (encodeVarint (wrap_string_raw v).length ++
        (wrap_string_raw v ++ rest)) := by
    simp [field_enc, List.append_assoc]
    rfl
  rw [hbufeq, merge_loop_cons, hkey]
  simp [AnonMessage.merge_field, hm, hmfm]

theorem step_field_4 (f : Nat) (m : AnonMessage) (v : List Nat)
    (rest : List Nat) (h1 : v.length < 4294967296) (hm : m.payload = []) :
    AnonMessage.merge_loop (f + 3) m (field_enc 4 (wrap_bytes_raw v) ++ rest) =
      AnonMessage.merge_loop (f + 2) { m with payload := v } rest := by
  have hlen : (wrap_bytes_raw v).length < 18446744073709551616 := by
    have := wrap_bytes_raw_length v
    omega
  have hmfm : message_field_merge merge_bytes (f + 2) 2 ([] : List Nat)
      (encodeVarint (wrap_bytes_raw v).length ++ (wrap_bytes_raw v ++ rest)) =
        some (v, rest) :=
    message_field_merge_enc merge_bytes (f + 2) [] v _ rest hlen
      (wrapper_bytes_enc f v (by omega))
  have hkey : decode_key
      (34 :: (encodeVarint (wrap_bytes_raw v).length ++ (wrap_bytes_raw v ++ rest))) =
        some (4, 2, encodeVarint (wrap_bytes_raw v).length ++
          (wrap_bytes_raw v ++ rest)) :=
    decode_key_encode 4 2 _ (by norm_num) (by norm_num) (by norm_num)
  have hbufeq : field_enc 4 (wrap_bytes_raw v) ++ rest =
      34 :: (encodeVarint (wrap_bytes_raw v).length ++
        (wrap_bytes_raw v ++ rest)) := by
    simp [field_enc, List.append_assoc]
    rfl
  rw [hbufeq, merge_loop_cons, hkey]
  simp [AnonMessage.merge_field, hm, hmfm]

theorem step_field_5 (f : Nat) (m : AnonMessage) (v : List Nat)
    (rest : List Nat) (h1 : v.length < 4294967296) (hm : m.signature = []) :
    AnonMessage.merge_loop (f + 3) m (field_enc 5 (wrap_bytes_raw v) ++ rest) =
      AnonMessage.merge_loop (f + 2) { m with signature := v } rest := by
  have hlen : (wrap_bytes_raw v).length < 18446744073709551616 := by
    have := wrap_bytes_raw_length v
    omega
  have hmfm : message_field_merge merge_bytes (f + 2) 2 ([] : List Nat)
      (encodeVarint (wrap_bytes_raw v).length ++ (wrap_bytes_raw v ++ rest)) =
        some (v, rest) :=
    message_field_merge_enc merge_bytes (f + 2) [] v _ rest hlen
      (wrapper_bytes_enc f v (by omega))
  have hkey : decode_key
      (42 :: (encodeVarint (wrap_bytes_raw v).length ++ (wrap_bytes_raw v ++ rest))) =
        some (5, 2, encodeVarint (wrap_bytes_raw v).length ++
          (wrap_bytes_raw v ++ rest)) :=
    decode_key_encode 5 2 _ (by norm_num) (by norm_num) (by norm_num)
  have hbufeq : field_enc 5 (wrap_bytes_raw v) ++ rest =
      42 :: (encodeVarint (wrap_bytes_raw v).length ++
        (wrap_bytes_raw v ++ rest)) := by
    simp [field_enc, List.append_assoc]
    rfl
  rw [hbufeq, merge_loop_cons, hkey]
  simp [AnonMessage.merge_field, hm, hmfm]

theorem step_field_6 (f : Nat) (m : AnonMessage) (v : Nat) (rest : List Nat)
    (h1 : v < 4294967296) (hm : m.hop_count = 0) :
    AnonMessage.merge_loop (f + 3) m (field_enc 6 (wrap_uint32_raw v) ++ rest) =
      AnonMessage.merge_loop (f + 2) { m with hop_count := v } rest := by
  have hlen : (wrap_uint32_raw v).length < 18446744073709551616 := by
    have := wrap_uint32_raw_length v
    omega
  have hmfm : message_field_merge merge_uint32 (f + 2) 2 (0 : Nat)
      (encodeVarint (wrap_uint32_raw v).length ++ (wrap_uint32_raw v ++ rest)) =
        some (v, rest) :=
    message_field_merge_enc merge_uint32 (f + 2) 0 v _ rest hlen
      (wrapper_uint32_enc f v h1)
  have hkey : decode_key
      (50 :: (encodeVarint (wrap_uint32_raw v).length ++ (wrap_uint32_raw v ++ rest))) =
        some (6, 2, encodeVarint (wrap_uint32_raw v).length ++
          (wrap_uint32_raw v ++ rest)) :=
    decode_key_encode 6 2 _ (by norm_num) (by norm_num) (by norm_num)
  have hbufeq : field_enc 6 (wrap_uint32_raw v) ++ rest =
      50 :: (encodeVarint (wrap_uint32_raw v).length ++
        (wrap_uint32_raw v ++ rest)) := by
    simp [field_enc, List.append_assoc]
    rfl
  rw [hbufeq, merge_loop_cons, hkey]
  simp [AnonMessage.merge_field, hm, hmfm]

theorem encode_length_pos (m : AnonMessage) : 1 ≤ (AnonMessage.encode m).length := by
  rw [AnonMessage.encode, AnonMessage.encode_raw]
  simp [field_enc, encode_key, encodeVarint, encodeVarintGo]

/-- Claim C3: for every valid AnonMessage value m (i32 message type, u64
timestamp, u32 hop count, UTF-8 sender id, buffer lengths within u32),
decoding the bytes produced by encoding m yields exactly m under the
tag-length-value encoding with tags 1=type, 2=timestamp, 3=sender_id,
4=payload, 5=signature, 6=hop_count. -/
theorem C3_codec_roundtrip (m : AnonMessage)
    (h1 : -2147483648 ≤ m.msg_type) (h2 : m.msg_type < 2147483648)
    (h3 : m.timestamp < 18446744073709551616)
    (h4 : m.temp_id.length < 4294967296) (h5 : validUtf8 m.temp_id = true)
    (h6 : m.payload.length < 4294967296)
    (h7 : m.signature.length < 4294967296)
    (h8 : m.hop_count < 4294967296) :
    AnonMessage.decode (AnonMessage.encode m) = some m := by
  obtain ⟨v1, v2, v3, v4, v5, v6⟩ := m
  have g1 : -2147483648 ≤ v1 := h1
  have g2 : v1 < 2147483648 := h2
  have g3 : v2 < 18446744073709551616 := h3
  have g4 : v3.length < 4294967296 := h4
  have g5 : validUtf8 v3 = true := h5
  have g6 : v4.length < 4294967296 := h6
  have g7 : v5.length < 4294967296 := h7
  have g8 : v6 < 4294967296 := h8
  have hL := encode_length_pos ⟨v1, v2, v3, v4, v5, v6⟩
  obtain ⟨f, hf⟩ : ∃ f,
      2 * (AnonMessage.encode ⟨v1, v2, v3, v4, v5, v6⟩).length + 8 = f + 9 :=
    ⟨2 * (AnonMessage.encode ⟨v1, v2, v3, v4, v5, v6⟩).length - 1, by omega⟩
  have hre : AnonMessage.encode ⟨v1, v2, v3, v4, v5, v6⟩ =
      field_enc 1 (wrap_int32_raw v1) ++ (field_enc 2 (wrap_uint64_raw v2) ++
        (field_enc 3 (wrap_string_raw v3) ++ (field_enc 4 (wrap_bytes_raw v4) ++
          (field_enc 5 (wrap_bytes_raw v5) ++ field_enc 6 (wrap_uint32_raw v6))))) := by
    simp [AnonMessage.encode, AnonMessage.encode_raw, List.append_assoc]
  show AnonMessage.merge_loop
    (2 * (AnonMessage.encode ⟨v1, v2, v3, v4, v5, v6⟩).length + 8)
    AnonMessage.default (AnonMessage.encode ⟨v1, v2, v3, v4, v5, v6⟩) =
    some ⟨v1, v2, v3, v4, v5, v6⟩
  rw [hf, hre, show f + 9 = (f + 6) + 3 from by omega,
    step_field_1 (f + 6) AnonMessage.default v1 _ g1 g2 rfl,
    show (f + 6) + 2 = (f + 5) + 3 from by omega,
    step_field_2 (f + 5) _ v2 _ g3 rfl,
    show (f + 5) + 2 = (f + 4) + 3 from by omega,
    step_field_3 (f + 4) _ v3 _ g4 g5 rfl,
    show (f + 4) + 2 = (f + 3) + 3 from by omega,
    step_field_4 (f + 3) _ v4 _ g6 rfl,
    show (f + 3) + 2 = (f + 2) + 3 from by omega,
    show field_enc 5 (wrap_bytes_raw v5) ++ field_enc 6 (wrap_uint32_raw v6) =
      field_enc 5 (wrap_bytes_raw v5) ++
        (field_enc 6 (wrap_uint32_raw v6) ++ []) from by rw [List.append_nil],
    step_field_5 (f + 2) _ v5 _ g7 rfl,
    show (f + 2) + 2 = (f + 1) + 3 from by omega,
    step_field_6 (f + 1) _ v6 _ g8 rfl,
    show (f + 1) + 2 = (f + 2) + 1 from by omega,
    merge_loop_nil]

/-- Witness for C3 at a concrete message with all six fields populated. -/
theorem C3_codec_roundtrip_witness :
    (-2147483648 ≤ (-5 : Int)) ∧ ((-5 : Int) < 2147483648) ∧
    ((77 : Nat) < 18446744073709551616) ∧
    (([97, 98] : List Nat).length < 4294967296) ∧
    (validUtf8 [97, 98] = true) ∧
    (([1, 255] : List Nat).length < 4294967296) ∧
    (([42] : List Nat).length < 4294967296) ∧
    ((9 : Nat) < 4294967296) ∧
    AnonMessage.decode (AnonMessage.encode
      { msg_type := -5, timestamp := 77, temp_id := [97, 98]
        payload := [1, 255], signature := [42], hop_count := 9 }) =
      some { msg_type := -5, timestamp := 77, temp_id := [97, 98]
             payload := [1, 255], signature := [42], hop_count := 9 } :=
  ⟨by decide, by decide, by decide, by decide, by decide, by decide, by decide,
    by decide,
    C3_codec_roundtrip
      { msg_type := -5, timestamp := 77, temp_id := [97, 98]
        payload := [1, 255], signature := [42], hop_count := 9 }
      (by decide) (by decide) (by decide) (by decide) (by decide) (by decide)
      (by decide) (by decide)⟩

-- ### Message sealing and opening (`encrypt_message` / `decrypt_message`)

/-- `AnonymousProtocol::encrypt_message`: encode the message, draw a fresh
random 256-bit key and 96-bit nonce from the system rng, AEAD-seal the
encoding with empty associated data, and output nonce followed by the
ciphertext with its tag.  The freshly drawn key is used only inside this
call and is not returned to the caller. -/
def encrypt_message (rng : Nat → Nat) (message : AnonMessage) :
    Except String (List Nat) :=
  let encoded := AnonMessage.encode message
  let key_bytes := fillBytes rng 0 32
  let nonce_bytes := fillBytes rng 32 12
  if key_bytes.length ≠ 32 then .error "Anahtar oluşturma hatası"
  else .ok (nonce_bytes ++ seal_in_place_append_tag key_bytes nonce_bytes encoded)

/-- `AnonymousProtocol::decrypt_message`: reject inputs shorter than 12
bytes, split off the 12-byte nonce, then — exactly as the source does (its
own comment admits the receiver would need the real key) — draw a FRESH
random key from the system rng, AEAD-open the ciphertext under that fresh
key and the packet nonce, and decode the resulting plaintext as an
AnonMessage. -/
def decrypt_message (rng : Nat → Nat) (encrypted : List Nat) :
    Except String AnonMessage :=
  if encrypted.length < 12 then .error "Geçersiz şifrelenmiş mesaj"
  else
    let nonce_bytes := encrypted.take 12
    let ciphertext := encrypted.drop 12
    let key_bytes := fillBytes rng 0 32
    if key_bytes.length ≠ 32 then .error "Anahtar oluşturma hatası"
    else
      match open_in_place key_bytes nonce_bytes ciphertext with
      | none => .error "Şifre çözme hatası"
      | some pt =>
        match AnonMessage.decode pt with
        | none => .error "Mesaj çözme hatası"
        | some m => .ok m

set_option maxRecDepth 40000 in
/-- Claim C1 (code-bug evaluation): sealing a concrete message and opening
the sealed packet fails.  `decrypt_message` accepts no key parameter at
all: instead of the key used to seal, it draws a fresh random key from its
own rng (here the independent stream fun i => i + 1), so the AEAD tag does
not verify and the round trip errors instead of returning the message. -/
theorem C1_decrypt_message_fresh_key_fails :
    (encrypt_message (fun i => i)
      { msg_type := 1, timestamp := 77, temp_id := [97, 98]
        payload := [1, 255], signature := [42], hop_count := 9 }).bind
      (decrypt_message (fun i => i + 1)) =
      .error "Şifre çözme hatası" := by
  rfl

theorem fillBytes_length (rng : Nat → Nat) (off n : Nat) :
    (fillBytes rng off n).length = n := by
  simp [fillBytes]

/-- Claim C7: `decrypt_message` is a total function into a typed result
(it never panics), it fails exactly when the input is shorter than
nonce + tag = 12 + 16 bytes, or the AEAD tag does not verify under the
drawn key and the packet nonce, or the decrypted bytes fail to decode as
an AnonMessage; and on success it returns exactly the decode of the
authenticated plaintext, never corrupted data. -/
theorem C7_decrypt_error_conditions (rng : Nat → Nat) (enc : List Nat) :
    ((decrypt_message rng enc).isOk = true ↔
      (28 ≤ enc.length ∧
       (enc.drop 12).drop (enc.length - 28) =
         polyTag (fillBytes rng 0 32) (enc.take 12)
           ((enc.drop 12).take (enc.length - 28)) ∧
       (AnonMessage.decode (xorKs (fillBytes rng 0 32) (enc.take 12) 0
           ((enc.drop 12).take (enc.length - 28)))).isSome = true)) ∧
    (∀ m, decrypt_message rng enc = .ok m →
      AnonMessage.decode (xorKs (fillBytes rng 0 32) (enc.take 12) 0
        ((enc.drop 12).take (enc.length - 28))) = some m) := by
  have hkl : (fillBytes rng 0 32).length = 32 := fillBytes_length rng 0 32
  have hsub : enc.length - 12 - 16 = enc.length - 28 := by omega
  simp only [decrypt_message, open_in_place, List.length_drop, hsub]
  by_cases h12 : enc.length < 12
  · rw [if_pos h12]
    refine ⟨⟨fun h => absurd h (by simp [Except.isOk, Except.toBool]),
      fun h => absurd h.1 (by omega)⟩, fun m hm => Except.noConfusion hm⟩
  · rw [if_neg h12, if_neg (by simp [hkl])]
    by_cases h16 : enc.length - 12 < 16
    · rw [if_pos h16]
      dsimp only
      refine ⟨⟨fun h => absurd h (by simp [Except.isOk, Except.toBool]),
        fun h => absurd h.1 (by omega)⟩, fun m hm => Except.noConfusion hm⟩
    · rw [if_neg h16]
      by_cases htag : (enc.drop 12).drop (enc.length - 28) =
          polyTag (fillBytes rng 0 32) (enc.take 12)
            ((enc.drop 12).take (enc.length - 28))
      · rw [if_pos htag]
        dsimp only
        cases hdec : AnonMessage.decode (xorKs (fillBytes rng 0 32)
            (enc.take 12) 0 ((enc.drop 12).take (enc.length - 28))) with
        | none =>
          dsimp only
          refine ⟨⟨fun h => absurd h (by simp [Except.isOk, Except.toBool]),
            fun h => absurd h.2.2 (by simp)⟩, fun m hm => Except.noConfusion hm⟩
        | some m0 =>
          dsimp only
          refine ⟨⟨fun _ => ⟨by omega, htag, rfl⟩, fun _ => rfl⟩, ?_⟩
          intro m hm
          injection hm with hmv
          rw [hmv]
      · rw [if_neg htag]
        dsimp only
        refine ⟨⟨fun h => absurd h (by simp [Except.isOk, Except.toBool]),
          fun h => absurd h.2.1 htag⟩, fun m hm => Except.noConfusion hm⟩

-- ### Temporary identities (`TemporaryIdentity` / `get_identity`)

/-- `TemporaryIdentity` from `anon_protocol.rs`: random hex-rendered id,
signing keypair (modelled by the opaque randomness that generated it),
creation time and expiry time. -/
structure TemporaryIdentity where
  id : List Nat
  keypair_seed : Nat
  created_at : Nat
  valid_until : Nat
deriving Repr, DecidableEq

/-- One lowercase hex digit (`hex::encode` uses 0-9 then a-f). -/
def hexDigit (n : Nat) : Nat :=
  if n < 10 then 48 + n else 87 + n

/-- `hex::encode`: two lowercase hex digits per byte. -/
def hexEncode (bytes : List Nat) : List Nat :=
  bytes.foldr (fun b acc => hexDigit (b / 16) :: hexDigit (b % 16) :: acc) []

/-- `TemporaryIdentity::new`: generate an Ed25519 keypair from system
randomness (modelled as an opaque seed drawn from the oracle), fill 16
random id bytes, hex-render them, and set
valid_until = now + valid_duration. -/
def TemporaryIdentity.new (rng : Nat → Nat) (now valid_duration : Nat) :
    TemporaryIdentity :=
  { keypair_seed := rng 0
    id := hexEncode (fillBytes rng 1 16)
    created_at := now
    valid_until := now + valid_duration }

/-- `TemporaryIdentity::is_valid`: the current time is at most
valid_until. -/
def TemporaryIdentity.is_valid (t : TemporaryIdentity) (now : Nat) : Bool :=
  now ≤ t.valid_until

/-- `AnonymousProtocol` state: the optional current identity and the
configured identity duration. -/
structure AnonymousProtocol where
  current_identity : Option TemporaryIdentity
  identity_duration : Nat

/-- `AnonymousProtocol::get_identity`: decide whether a new identity is
needed (none present, or the present one no longer valid), create and
install one if so, then return the current identity. -/
def AnonymousProtocol.get_identity (p : AnonymousProtocol) (rng : Nat → Nat)
    (now : Nat) : Except String TemporaryIdentity × AnonymousProtocol :=
  let should_create_new :=
    match p.current_identity with
    | some identity => !(identity.is_valid now)
    | none => true
  let p2 := if should_create_new then
      { p with current_identity := some (TemporaryIdentity.new rng now p.identity_duration) }
    else p
  match p2.current_identity with
  | some identity => (.ok identity, p2)
  | none => (.error "Kimlik oluşturulamadı", p2)

theorem hexDigit_inj (a b : Nat) (ha : a < 16) (hb : b < 16)
    (h : hexDigit a = hexDigit b) : a = b := by
  unfold hexDigit at h
  split at h <;> split at h <;> omega

theorem hexEncode_inj (xs : List Nat) :
    ∀ ys, (∀ b ∈ xs, b < 256) → (∀ b ∈ ys, b < 256) →
      hexEncode xs = hexEncode ys → xs = ys := by
  induction xs with
  | nil =>
    intro ys _ _ h
    cases ys with
    | nil => rfl
    | cons y ys => exact absurd h (by simp [hexEncode])
  | cons x xs ih =>
    intro ys hx hy h
    cases ys with
    | nil => exact absurd h (by simp [hexEncode])
    | cons y ys =>
      have hx1 : x < 256 := hx x (by simp)
      have hy1 : y < 256 := hy y (by simp)
      simp only [hexEncode, List.foldr_cons, List.cons.injEq] at h
      obtain ⟨h1, h2, h3⟩ := h
      have e1 : x / 16 = y / 16 :=
        hexDigit_inj _ _ (by omega) (by omega) h1
      have e2 : x % 16 = y % 16 :=
        hexDigit_inj _ _ (by omega) (by omega) h2
      have exy : x = y := by omega
      have etail : xs = ys :=
        ih ys (fun b hb => hx b (by simp [hb])) (fun b hb => hy b (by simp [hb])) h3
      rw [exy, etail]

theorem fillBytes_lt (rng : Nat → Nat) (off n : Nat) :
    ∀ b ∈ fillBytes rng off n, b < 256 := by
  intro b hb
  simp only [fillBytes, List.mem_map] at hb
  obtain ⟨i, _, rfl⟩ := hb
  exact Nat.mod_lt _ (by omega)

/-- Claim C8: `get_identity` returns the currently active identity
unchanged (same value, state untouched) whenever now is at most
valid_until; when no identity exists or the current one has expired it
creates, installs and returns a fresh identity whose valid_until equals
now + configured duration; and after an expiry the returned identity has a
different id than the previous one whenever the fresh random id bytes
differ from those of the old identity. -/
theorem C8_get_identity (p : AnonymousProtocol) (rng : Nat → Nat) (now : Nat) :
    (∀ i, p.current_identity = some i → now ≤ i.valid_until →
      AnonymousProtocol.get_identity p rng now = (.ok i, p)) ∧
    ((p.current_identity = none ∨
        (∃ i, p.current_identity = some i ∧ i.valid_until < now)) →
      AnonymousProtocol.get_identity p rng now =
        (.ok (TemporaryIdentity.new rng now p.identity_duration),
         { p with current_identity := some (TemporaryIdentity.new rng now p.identity_duration) }) ∧
      (TemporaryIdentity.new rng now p.identity_duration).valid_until =
        now + p.identity_duration) ∧
    (∀ i old_bytes, p.current_identity = some i → i.valid_until < now →
      i.id = hexEncode old_bytes → (∀ b ∈ old_bytes, b < 256) →
      fillBytes rng 1 16 ≠ old_bytes →
      (AnonymousProtocol.get_identity p rng now).1 =
        .ok (TemporaryIdentity.new rng now p.identity_duration) ∧
      (TemporaryIdentity.new rng now p.identity_duration).id ≠ i.id) := by
  refine ⟨?_, ?_, ?_⟩
  · intro i hi hval
    simp [AnonymousProtocol.get_identity, hi, TemporaryIdentity.is_valid, hval]
  · intro hcase
    rcases hcase with hnone | ⟨i, hi, hexp⟩
    · constructor
      · simp [AnonymousProtocol.get_identity, hnone]
      · rfl
    · constructor
      · have hnv : ¬ (now ≤ i.valid_until) := by omega
        simp [AnonymousProtocol.get_identity, hi, TemporaryIdentity.is_valid, hnv]
      · rfl
  · intro i old_bytes hi hexp hid hob hne
    have hnv : ¬ (now ≤ i.valid_until) := by omega
    constructor
    · simp [AnonymousProtocol.get_identity, hi, TemporaryIdentity.is_valid, hnv]
    · intro hcontra
      have : hexEncode (fillBytes rng 1 16) = hexEncode old_bytes := by
        rw [← hid]
        exact hcontra
      exact hne (hexEncode_inj (fillBytes rng 1 16) old_bytes
        (fillBytes_lt rng 1 16) hob this)

/-- A concrete expired identity used by the C8 witness. -/
def old_identity_example : TemporaryIdentity :=
  { id := hexEncode (List.replicate 16 0), keypair_seed := 0, created_at := 0, valid_until := 100 }

/-- A concrete protocol state holding the expired identity. -/
def protocol_state_example : AnonymousProtocol :=
  { current_identity := some old_identity_example, identity_duration := 50 }

/-- Witness for C8 at a concrete protocol state holding an expired
identity. -/
theorem C8_get_identity_witness :
    ((AnonymousProtocol.get_identity protocol_state_example (fun i => i) 200).1 =
      .ok (TemporaryIdentity.new (fun i => i) 200 50) ∧
    (TemporaryIdentity.new (fun i => i) 200 50).id ≠ old_identity_example.id) ∧
    (TemporaryIdentity.new (fun i => i) 200 50).valid_until = 200 + 50 := by
  have h := C8_get_identity protocol_state_example (fun i => i) 200
  refine ⟨h.2.2 old_identity_example (List.replicate 16 0) rfl (by decide) rfl
      (by decide) (by decide),
    (h.2.1 (Or.inr ⟨old_identity_example, rfl, by decide⟩)).2⟩

end AnonProtocol

namespace ChaoticRouting

/-!
Embedding of `chaotic_routing.rs`.  `PeerId` (an opaque libp2p token) is a
`Nat`; the route table (`HashMap<String, Vec<PeerId>>`) is an association
list whose insert replaces any previous binding of the key.  The f32 field
`forward_probability` and `should_forward` (a Bernoulli trial over an f32
comparison) involve floating point and are outside the embedding; the
claims treated here do not mention them.  `thread_rng().gen_range(0..n)`
is modelled as an oracle value reduced mod n. -/

/-- `ChaoticRouter` state used by the claims: the hop bound and the route
table. -/
structure ChaoticRouter where
  max_hops : Nat
  current_routes : List (String × List Nat)
deriving Repr, DecidableEq

/-- `ChaoticRouter::generate_random_route`: empty peer set or zero hop
count yields the empty route; otherwise push min(hop_count, max_hops)
randomly indexed peers (the index is always in range, so the `if let Some`
of the source always pushes). -/
def ChaoticRouter.generate_random_route (r : ChaoticRouter)
    (rng : Nat → Nat) (available_peers : List Nat) (hop_count : Nat) :
    List Nat :=
  if available_peers.isEmpty || hop_count == 0 then []
  else
    let actual_hops := min hop_count r.max_hops
    (List.range actual_hops).foldl (fun route i =>
      match available_peers[rng i % available_peers.length]? with
      | some peer => route ++ [peer]
      | none => route) []

/-- `ChaoticRouter::create_route`: draw hop_count uniformly from
[1, max_hops] (the Rust `gen_range(1..=max_hops)` panics when
max_hops = 0; the model is used with max_hops ≥ 1), generate a route,
store it in the route table under the message id, and return Ok(route). -/
def ChaoticRouter.create_route (r : ChaoticRouter) (rngHop : Nat)
    (rngRoute : Nat → Nat) (message_id : String)
    (available_peers : List Nat) :
    Except String (List Nat) × ChaoticRouter :=
  let hop_count := 1 + rngHop % r.max_hops
  let route := r.generate_random_route rngRoute available_peers hop_count
  (.ok route,
   { r with current_routes :=
      (message_id, route) ::
        r.current_routes.filter (fun kv => kv.1 != message_id) })

/-- `ChaoticRouter::get_route`: lookup by message id. -/
def ChaoticRouter.get_route (r : ChaoticRouter) (message_id : String) :
    Option (List Nat) :=
  (r.current_routes.find? (fun kv => kv.1 == message_id)).map (fun kv => kv.2)

/-- `ChaoticRouter::clear_route`: remove the binding of the message id. -/
def ChaoticRouter.clear_route (r : ChaoticRouter) (message_id : String) :
    ChaoticRouter :=
  { r with current_routes :=
      r.current_routes.filter (fun kv => kv.1 != message_id) }

theorem route_fold_length (peers : List Nat) (hne : ¬ peers.isEmpty = true)
    (rng : Nat → Nat) (n : Nat) :
    ∀ acc : List Nat,
      ((List.range n).foldl (fun route i =>
        match peers[rng i % peers.length]? with
        | some peer => route ++ [peer]
        | none => route) acc).length = acc.length + n := by
  induction n with
  | zero => intro acc; simp
  | succ n ih =>
    intro acc
    have hpos : 0 < peers.length := by
      cases peers with
      | nil => simp at hne
      | cons a l => simp
    have hidx : rng n % peers.length < peers.length := Nat.mod_lt _ hpos
    rw [List.range_succ, List.foldl_append]
    simp only [List.foldl_cons, List.foldl_nil,
      List.getElem?_eq_getElem hidx]
    rw [List.length_append]
    rw [ih acc]
    simp
    omega

theorem route_fold_mem (peers : List Nat) (rng : Nat → Nat) (n : Nat) :
    ∀ acc : List Nat,
      ∀ p ∈ (List.range n).foldl (fun route i =>
        match peers[rng i % peers.length]? with
        | some peer => route ++ [peer]
        | none => route) acc, p ∈ acc ∨ p ∈ peers := by
  induction n with
  | zero => intro acc p hp; exact Or.inl (by simpa using hp)
  | succ n ih =>
    intro acc p hp
    rw [List.range_succ, List.foldl_append] at hp
    simp only [List.foldl_cons, List.foldl_nil] at hp
    cases hget : peers[rng n % peers.length]? with
    | none =>
      rw [hget] at hp
      exact ih acc p hp
    | some q =>
      rw [hget] at hp
      rcases List.mem_append.mp hp with hin | hq
      · exact ih acc p hin
      · right
        have hpq : p = q := by simpa using hq
        subst hpq
        cases peers with
        | nil => simp at hget
        | cons a l =>
          have hlt : rng n % (a :: l).length < (a :: l).length :=
            Nat.mod_lt _ (by simp)
          simp only [List.getElem?_eq_getElem hlt, Option.some.injEq] at hget
          rw [← hget]
          exact List.getElem_mem hlt

/-- Claim C6: for every non-empty available_peers and every hop_count,
generate_random_route returns a route of exactly min(hop_count, max_hops)
elements, each of which is a member of available_peers (duplicates
permitted); for an empty peer set it returns the empty route. -/
theorem C6_generate_random_route_spec (max_hops : Nat)
    (routes : List (String × List Nat)) (rng : Nat → Nat)
    (peers : List Nat) (hop_count : Nat) :
    (peers = [] →
      ChaoticRouter.generate_random_route ⟨max_hops, routes⟩ rng peers
        hop_count = []) ∧
    (peers ≠ [] →
      (ChaoticRouter.generate_random_route ⟨max_hops, routes⟩ rng peers
          hop_count).length = min hop_count max_hops ∧
      ∀ p ∈ ChaoticRouter.generate_random_route ⟨max_hops, routes⟩ rng peers
          hop_count, p ∈ peers) := by
  constructor
  · intro hpe
    subst hpe
    rfl
  · intro hne
    have hpe : peers.isEmpty = false := by
      cases peers with
      | nil => exact absurd rfl hne
      | cons a l => rfl
    by_cases h0 : hop_count = 0
    · subst h0
      constructor
      · simp [ChaoticRouter.generate_random_route, hpe]
      · intro p hp
        simp [ChaoticRouter.generate_random_route, hpe] at hp
    · have hcond : (peers.isEmpty || (hop_count == 0)) = false := by
        simp [hpe, h0]
      constructor
      · simp only [ChaoticRouter.generate_random_route, hcond,
          Bool.false_eq_true, if_false]
        have h := route_fold_length peers (by simp [hpe]) rng
          (min hop_count max_hops) []
        simpa using h
      · intro p hp
        simp only [ChaoticRouter.generate_random_route, hcond,
          Bool.false_eq_true, if_false] at hp
        rcases route_fold_mem peers rng (min hop_count max_hops) [] p hp with
          hin | hmem
        · simp at hin
        · exact hmem

/-- Witness for C6 on a concrete router, rng and non-empty peer set. -/
theorem C6_generate_random_route_witness :
    (([1, 2, 3] : List Nat) ≠ []) ∧
    ((ChaoticRouter.generate_random_route ⟨3, []⟩ (fun i => i) [1, 2, 3]
        5).length = min 5 3 ∧
     ∀ p ∈ ChaoticRouter.generate_random_route ⟨3, []⟩ (fun i => i) [1, 2, 3]
        5, p ∈ [1, 2, 3]) :=
  ⟨by decide,
    (C6_generate_random_route_spec 3 [] (fun i => i) [1, 2, 3] 5).2
      (by decide)⟩

/-- Claim C5 counterexample: on a concrete router (max_hops = 3) and
message id, create_route with the empty available-peer set returns
Ok([]) — the empty route as a silent default — and not a RouteError. -/
theorem C5_create_route_counterexample :
    (ChaoticRouter.create_route ⟨3, []⟩ 0 (fun i => i) "msg" []).1 =
      .ok ([] : List Nat) := rfl

/-- Claim C5 amended: for every message id and router with max_hops ≥ 1
(the Rust hop-count draw panics for max_hops = 0), create_route on an
empty available-peer set does not fail with a RouteError: it returns Ok
with the empty route and stores that empty route in the route table under
the message id. -/
theorem C5_create_route_empty_peers (max_hops : Nat)
    (routes : List (String × List Nat)) (rngHop : Nat) (rngRoute : Nat → Nat)
    (message_id : String) (hM : 1 ≤ max_hops) :
    ChaoticRouter.create_route ⟨max_hops, routes⟩ rngHop rngRoute
        message_id [] =
      (.ok [], ⟨max_hops, (message_id, []) ::
        routes.filter (fun kv => kv.1 != message_id)⟩) := by
  unfold ChaoticRouter.create_route ChaoticRouter.generate_random_route
  simp

/-- Witness for the amended C5 theorem at a concrete router state. -/
theorem C5_create_route_empty_peers_witness :
    1 ≤ 3 ∧ ChaoticRouter.create_route ⟨3, []⟩ 0 (fun i => i) "m1" [] =
      (.ok [], ⟨3, [("m1", [])]⟩) :=
  ⟨by decide, by
    have h := C5_create_route_empty_peers 3 [] 0 (fun i => i) "m1" (by decide)
    simpa using h⟩

end ChaoticRouting

namespace CryptoMod

/-!
Embedding of `mod.rs`: the cipher-suite enum, the free route generator
with its synthetic test-peer default, per-call ChaCha20-Poly1305 sealing
with a fresh (discarded) key, and onion-packet assembly.
-/

/-- The tagged cipher-suite enum `EncryptionLayer` from `mod.rs`. -/
inductive EncryptionLayer where
  | chaCha20Poly1305
  | aesGcm
deriving Repr, DecidableEq

/-- `EncryptedPacket` from `mod.rs`. -/
structure EncryptedPacket where
  data : List Nat
  nonces : List (List Nat)
  layers : List EncryptionLayer
  route : List String
deriving Repr, DecidableEq

/-- The free function `generate_random_route` from `mod.rs`: with at least
one known peer, choose `length` random peers (`choose` cannot fail on a
non-empty list, modelled by an indexed pick); with no peers return the
synthetic default route test-peer-0 .. test-peer-(length-1), which the
source comments is meant for testing only. -/
def generate_random_route (rng : Nat → Nat) (peer_ids : List String)
    (length : Nat) : List String :=
  if ¬ peer_ids.isEmpty then
    (List.range length).map
      (fun i => peer_ids.getD (rng i % peer_ids.length) "")
  else
    (List.range length).map (fun i => "test-peer-" ++ toString i)

/-- `encrypt_chacha20_poly1305` from `mod.rs`: fresh random 12-byte nonce
and 32-byte key per call (the key is discarded after sealing); returns the
ciphertext-with-tag and the nonce. -/
def encrypt_chacha20_poly1305 (rng : Nat → Nat) (off : Nat)
    (data : List Nat) : Except String (List Nat × List Nat) :=
  let nonce_bytes := fillBytes rng off 12
  let key_bytes := fillBytes rng (off + 12) 32
  if key_bytes.length ≠ 32 then .error "Anahtar oluşturma hatası"
  else .ok (seal_in_place_append_tag key_bytes nonce_bytes data, nonce_bytes)

/-- The loop of `multi_layer_encrypt`: both enum variants currently seal
with ChaCha20-Poly1305 (the source notes AES-GCM could be added later);
each iteration consumes fresh randomness and appends its nonce. -/
def multi_layer_encrypt_go (rng : Nat → Nat) (idx : Nat)
    (current : List Nat) (nonces : List (List Nat)) :
    List EncryptionLayer → Except String (List Nat × List (List Nat))
  | [] => .ok (current, nonces)
  | layer :: rest =>
    let step := match layer with
      | .chaCha20Poly1305 => encrypt_chacha20_poly1305 rng (44 * idx) current
      | .aesGcm => encrypt_chacha20_poly1305 rng (44 * idx) current
    match step with
    | .ok p => multi_layer_encrypt_go rng (idx + 1) p.1 (nonces ++ [p.2]) rest
    | .error e => .error e

/-- `multi_layer_encrypt` from `mod.rs`. -/
def multi_layer_encrypt (rng : Nat → Nat) (data : List Nat)
    (layers : List EncryptionLayer) :
    Except String (List Nat × List (List Nat)) :=
  multi_layer_encrypt_go rng 0 data [] layers

/-- `create_onion_packet` from `mod.rs`: pick `layer_count` random suites,
pick a route length of at least 3 from [3, 7), generate the (synthetic
when no peers are known) route, multi-layer-encrypt the data and assemble
the packet. -/
def create_onion_packet (rngKind : Nat → Nat) (rngLen : Nat)
    (rngRoute : Nat → Nat) (rngEnc : Nat → Nat) (data : List Nat)
    (peer_ids : List String) (layer_count : Nat) :
    Except String EncryptedPacket :=
  let layers := (List.range layer_count).map (fun i =>
    if rngKind i % 2 = 0 then EncryptionLayer.chaCha20Poly1305
    else EncryptionLayer.aesGcm)
  let route_length := max 3 (3 + rngLen % 4)
  let route := generate_random_route rngRoute peer_ids route_length
  match multi_layer_encrypt rngEnc data layers with
  | .ok p =>
    .ok { data := p.1, nonces := p.2, layers := layers, route := route }
  | .error e => .error e

theorem encrypt_chacha_ok (rng : Nat → Nat) (off : Nat) (data : List Nat) :
    encrypt_chacha20_poly1305 rng off data =
      .ok (seal_in_place_append_tag (fillBytes rng (off + 12) 32)
        (fillBytes rng off 12) data, fillBytes rng off 12) := by
  simp [encrypt_chacha20_poly1305, AnonProtocol.fillBytes_length]

theorem multi_layer_encrypt_go_ok (layers : List EncryptionLayer) :
    ∀ (rng : Nat → Nat) (idx : Nat) (current : List Nat)
      (nonces : List (List Nat)),
      ∃ out, multi_layer_encrypt_go rng idx current nonces layers =
        .ok out := by
  induction layers with
  | nil => exact fun rng idx c n => ⟨(c, n), rfl⟩
  | cons l rest ih =>
    intro rng idx c n
    cases l with
    | chaCha20Poly1305 =>
      simp only [multi_layer_encrypt_go, encrypt_chacha_ok]
      exact ih rng (idx + 1) _ _
    | aesGcm =>
      simp only [multi_layer_encrypt_go, encrypt_chacha_ok]
      exact ih rng (idx + 1) _ _

theorem generate_random_route_empty (rng : Nat → Nat) (n : Nat) :
    generate_random_route rng [] n =
      (List.range n).map (fun i => "test-peer-" ++ toString i) := by
  simp [generate_random_route]

/-- Claim C10: for every requested length L ≥ 1, the free
generate_random_route of mod.rs called with an empty peer-id list returns
neither an empty route nor an error: it returns exactly the L synthetic
identifiers test-peer-0 .. test-peer-(L-1), none of which is a member of
the (empty) peer set; and create_onion_packet with no known peers always
succeeds and embeds a synthetic route of 3 to 6 such hops. -/
theorem C10_synthetic_route (rng : Nat → Nat) (L : Nat) (hL : 1 ≤ L)
    (rngKind : Nat → Nat) (rngLen : Nat) (rngRoute : Nat → Nat)
    (rngEnc : Nat → Nat) (data : List Nat) (layer_count : Nat) :
    generate_random_route rng [] L =
      (List.range L).map (fun i => "test-peer-" ++ toString i) ∧
    generate_random_route rng [] L ≠ [] ∧
    (∀ s ∈ generate_random_route rng [] L, s ∉ ([] : List String)) ∧
    (∃ pkt, create_onion_packet rngKind rngLen rngRoute rngEnc data []
        layer_count = .ok pkt ∧
      3 ≤ pkt.route.length ∧ pkt.route.length ≤ 6 ∧
      pkt.route = (List.range pkt.route.length).map
        (fun i => "test-peer-" ++ toString i)) := by
  refine ⟨generate_random_route_empty rng L, ?_, ?_, ?_⟩
  · rw [generate_random_route_empty]
    intro hcontra
    rw [List.map_eq_nil_iff, List.range_eq_nil] at hcontra
    omega
  · intro s _ hs
    simp at hs
  · obtain ⟨out, hout⟩ := multi_layer_encrypt_go_ok
      ((List.range layer_count).map (fun i =>
        if rngKind i % 2 = 0 then EncryptionLayer.chaCha20Poly1305
        else EncryptionLayer.aesGcm)) rngEnc 0 data []
    have hcreate : create_onion_packet rngKind rngLen rngRoute rngEnc data []
        layer_count = .ok
      { data := out.1, nonces := out.2
        layers := (List.range layer_count).map (fun i =>
          if rngKind i % 2 = 0 then EncryptionLayer.chaCha20Poly1305
          else EncryptionLayer.aesGcm)
        route := generate_random_route rngRoute [] (max 3 (3 + rngLen % 4)) } := by
      simp only [create_onion_packet, multi_layer_encrypt, hout]
    refine ⟨_, hcreate, ?_, ?_, ?_⟩
    · have hlen : (generate_random_route rngRoute []
          (max 3 (3 + rngLen % 4))).length = max 3 (3 + rngLen % 4) := by
        rw [generate_random_route_empty]
        simp
      simp only [hlen]
      exact le_max_left 3 _
    · have hlen : (generate_random_route rngRoute []
          (max 3 (3 + rngLen % 4))).length = max 3 (3 + rngLen % 4) := by
        rw [generate_random_route_empty]
        simp
      simp only [hlen]
      have h4 : rngLen % 4 < 4 := Nat.mod_lt _ (by omega)
      exact Nat.max_le.mpr ⟨by omega, by omega⟩
    · have hlen : (generate_random_route rngRoute []
          (max 3 (3 + rngLen % 4))).length = max 3 (3 + rngLen % 4) := by
        rw [generate_random_route_empty]
        simp
      simp only [hlen]
      exact generate_random_route_empty rngRoute (max 3 (3 + rngLen % 4))

/-- Witness for C10 at concrete oracles, length and payload. -/
theorem C10_synthetic_route_witness :
    1 ≤ 1 ∧
    (generate_random_route (fun i => i) [] 1 =
      (List.range 1).map (fun i => "test-peer-" ++ toString i) ∧
    generate_random_route (fun i => i) [] 1 ≠ [] ∧
    (∀ s ∈ generate_random_route (fun i => i) [] 1, s ∉ ([] : List String)) ∧
    (∃ pkt, create_onion_packet (fun i => i) 0 (fun i => i) (fun i => i) [5]
        [] 2 = .ok pkt ∧
      3 ≤ pkt.route.length ∧ pkt.route.length ≤ 6 ∧
      pkt.route = (List.range pkt.route.length).map
        (fun i => "test-peer-" ++ toString i))) :=
  ⟨by decide,
    C10_synthetic_route (fun i => i) 1 (by decide) (fun i => i) 0
      (fun i => i) (fun i => i) [5] 2⟩

end CryptoMod
